import Mathlib

/-
Verification of the aipstack event-loop dispatch core (EventLoop.h / EventLoop.cpp)
against its natural-language specification.

The portable dispatch core is embedded shallowly:
  * `TimerState`, its uint8 encoding and the 2-bit order class come from
    `EventLoop::TimerState` (EventLoop.h lines 72-81).
  * `compareEntries` is `EventLoop::TimerCompare::compareEntries`.
  * Timer operations (`setAt`, `setAfter`, `unset`), the loop phases
    (`prepare_timers_for_dispatch`, `dispatch_timers`, `prepare_timers_for_wait`,
    `dispatch_async_signals`) and `run` follow the bodies in EventLoop.cpp.
  * The intrusive heap (LinkedHeap), the circular async-signal list, the OS
    readiness provider and the EventLoopTime arithmetic live outside the given
    sources; they are modelled from the specification's contracts, as marked on
    each such definition.

Machine state is a record `LoopState`; user callbacks are scripts of API
operations (`HandlerOp`).  A ghost `trace : List Ev` records heap operations,
handler invocations and provider wakeups so that claims about "which heap
operation was performed" and "how often a handler fired" are statable.
-/

namespace AIpStack

/-- Timer states, from `enum class TimerState : std::uint8_t`
(EventLoop.h lines 75-81). -/
inductive TimerState where
  | Idle
  | Dispatch
  | TempUnset
  | TempSet
  | Pending
deriving DecidableEq

/-- The `std::uint8_t` value of each enumerator:
Idle = 0, Dispatch = 1, TempUnset = 2, TempSet = 2 | (1 << 2) = 6, Pending = 3. -/
def TimerState.encoding : TimerState → Nat
  | .Idle => 0
  | .Dispatch => 1
  | .TempUnset => 2
  | .TempSet => 6
  | .Pending => 3

/-- `TimerStateOrderBits = 2` (EventLoop.h line 72). -/
def TimerStateOrderBits : Nat := 2

/-- `TimerStateOrderMask = (1 << TimerStateOrderBits) - 1 = 3` (EventLoop.h line 73). -/
def TimerStateOrderMask : Nat := (1 <<< TimerStateOrderBits) - 1

/-- The state-order class: `std::uint8_t(state) & TimerStateOrderMask`
(EventLoop.cpp lines 49-50). -/
def TimerState.order (st : TimerState) : Nat :=
  Nat.land st.encoding TimerStateOrderMask

/-- An `EventLoopTimer`'s own data: `m_state` and `m_time`.
Deadlines (`EventLoopTime`) are modelled as `Nat` ticks since the clock epoch. -/
structure Timer where
  state : TimerState
  time : Nat
deriving DecidableEq

/-- `EventLoopTime::max()`, the "no timer" sentinel.  The clock representation is
a 64-bit signed count, so the maximum is 2^63 - 1 ticks. -/
def timeMax : Nat := 2 ^ 63 - 1

/-- `EventLoop::TimerCompare::compareEntries` (EventLoop.cpp lines 44-61):
compare the 2-bit order classes first, then the deadlines; 0 when both equal. -/
def compareEntries (tim1 tim2 : Timer) : Int :=
  let order1 := tim1.state.order
  let order2 := tim2.state.order
  if order1 ≠ order2 then
    if order1 < order2 then -1 else 1
  else if tim1.time ≠ tim2.time then
    if tim1.time < tim2.time then -1 else 1
  else
    0

/-- `EventLoopTimer::isSet` (EventLoop.h lines 151-154):
`m_state != OneOf(TimerState::Idle, TimerState::TempUnset)`. -/
def Timer.isSet (tm : Timer) : Bool :=
  !(tm.state = .Idle ∨ tm.state = .TempUnset)

/-- `EventLoopTimer::EventLoopTimer` (EventLoop.cpp lines 244-248): `m_time` is the
default-constructed `EventLoopTime()` (the clock epoch, tick 0), `m_state` Idle. -/
def mkTimer : Timer :=
  { state := .Idle, time := 0 }

/-- Modelled from the spec: `EventLoopTime`/`EventLoopDuration` arithmetic is
defined in EventLoopCommon.h, which is not among the given sources.  Per the
spec, "`Duration` is a signed offset.  Arithmetic saturates at a sentinel
`Time::MAX`", so time + duration clamps into [0, timeMax]. -/
def satAdd (t : Nat) (d : Int) : Nat :=
  (min (max ((t : Int) + d) 0) (timeMax : Int)).toNat

/-- Ghost trace events: heap operations performed, handlers invoked, provider
wakeups requested, and waits entered. -/
inductive Ev where
  | insertE (i : Nat)
  | removeE (i : Nat)
  | fixupE (i : Nat)
  | firedTimer (i : Nat)
  | firedSignal (i : Nat)
  | wakeup
  | waitE (first_time : Nat) (time_changed : Bool)
deriving DecidableEq

/-- The event-loop state (fields of `class EventLoop`, EventLoop.h lines 129-137,
together with the per-timer data and the ghost trace).  `timers` maps a timer id
to its `m_state`/`m_time`; `heap` is the set of ids linked into `m_timer_heap`;
`pending` and `dispatchL` are the ids linked into `m_pending_async_list` and
`m_dispatch_async_list` in list order; a signal id in neither list is in the
"removed" marker state. -/
structure LoopState where
  timers : Nat → Timer
  heap : List Nat
  stop : Bool
  event_time : Nat
  last_wait_time : Nat
  pending : List Nat
  dispatchL : List Nat
  trace : List Ev

/-- Update one timer's record. -/
def setTimer (s : LoopState) (i : Nat) (tm : Timer) : LoopState :=
  { s with timers := fun j => if j = i then tm else s.timers j }

/-- Modelled from the spec: the intrusive timer heap (`LinkedHeap`, spec §4.B) is
not among the given sources.  It is modelled by the membership list `heap`; the
root returned by `first()` is a minimal element under `compareEntries` (the
leftmost one among ties). -/
def heapFirst (tms : Nat → Timer) : List Nat → Option Nat
  | [] => none
  | i :: rest =>
    match heapFirst tms rest with
    | none => some i
    | some j => if compareEntries (tms j) (tms i) < 0 then some j else some i

/-- `EventLoopTimer::unset` (EventLoop.cpp lines 257-267). -/
def unset (i : Nat) (s : LoopState) : LoopState :=
  let tm := s.timers i
  if tm.state = .TempUnset ∨ tm.state = .TempSet then
    setTimer s i { tm with state := .TempUnset }
  else if tm.state ≠ .Idle then
    let s1 : LoopState :=
      { s with heap := s.heap.erase i, trace := s.trace ++ [.removeE i] }
    setTimer s1 i { tm with state := .Idle }
  else
    s

/-- `EventLoopTimer::setAt` (EventLoop.cpp lines 269-285): record `m_time = time`
first, then branch on the state. -/
def setAt (i : Nat) (t : Nat) (s : LoopState) : LoopState :=
  let tm := { s.timers i with time := t }
  if tm.state = .TempUnset ∨ tm.state = .TempSet then
    setTimer s i { tm with state := .TempSet }
  else
    let old := tm.state
    let s1 := setTimer s i { tm with state := .Pending }
    if old = .Idle then
      { s1 with heap := i :: s1.heap, trace := s1.trace ++ [.insertE i] }
    else
      { s1 with trace := s1.trace ++ [.fixupE i] }

/-- `EventLoopTimer::setAfter` (EventLoop.cpp lines 287-290):
`setAt(m_loop.getEventTime() + duration)`, with the saturating time arithmetic
modelled by `satAdd`. -/
def setAfter (i : Nat) (d : Int) (s : LoopState) : LoopState :=
  setAt i (satAdd s.event_time d) s

/-- Modelled from the spec: the "removed" marker of the circular async-signal
list (self-link) holds exactly when the node is linked into neither list. -/
def isRemovedSig (i : Nat) (s : LoopState) : Bool :=
  !(s.pending.contains i) && !(s.dispatchL.contains i)

/-- `EventLoopAsyncSignal::signal` (EventLoop.cpp lines 381-397): under the mutex,
if the node is removed, note whether `m_pending_async_list` was lonely and link
the node before the head (i.e. at the tail); after releasing the mutex, invoke
the provider wakeup iff the node was inserted first. -/
def signal (i : Nat) (s : LoopState) : LoopState :=
  if isRemovedSig i s then
    let inserted_first := s.pending.isEmpty
    let s1 := { s with pending := s.pending ++ [i] }
    if inserted_first then { s1 with trace := s1.trace ++ [.wakeup] } else s1
  else
    s

/-- `EventLoopAsyncSignal::reset` (EventLoop.cpp lines 399-409): under the mutex,
if not removed, unlink and mark removed. -/
def resetSig (i : Nat) (s : LoopState) : LoopState :=
  if isRemovedSig i s then
    s
  else
    { s with pending := s.pending.erase i, dispatchL := s.dispatchL.erase i }

/-- The loop-mutating API operations available to user handlers (spec §4.E, §4.G,
and `EventLoop::stop`). -/
inductive HandlerOp where
  | hSetAt (i t : Nat)
  | hSetAfter (i : Nat) (d : Int)
  | hUnset (i : Nat)
  | hStop
  | hSignal (i : Nat)
  | hResetSig (i : Nat)
deriving DecidableEq

/-- Apply one handler operation. -/
def applyOp : HandlerOp → LoopState → LoopState
  | .hSetAt i t, s => setAt i t s
  | .hSetAfter i d, s => setAfter i d s
  | .hUnset i, s => unset i s
  | .hStop, s => { s with stop := true }
  | .hSignal i, s => signal i s
  | .hResetSig i, s => resetSig i s

/-- Run a handler script. -/
def applyOps (ops : List HandlerOp) (s : LoopState) : LoopState :=
  ops.foldl (fun s1 op => applyOp op s1) s

/-- `EventLoop::prepare_timers_for_dispatch` (EventLoop.cpp lines 126-140).  The
heap traversal `findAllLesserOrEqual` is modelled from the spec contract (§4.B):
it visits every in-heap node with state Pending and deadline ≤ the key; the
visitor body from the source sets each visited timer to Dispatch. -/
def prepare_timers_for_dispatch (now : Nat) (s : LoopState) : LoopState :=
  { s with timers := fun i =>
      let tm := s.timers i
      if i ∈ s.heap ∧ tm.state = .Pending ∧ tm.time ≤ now then
        { tm with state := .Dispatch }
      else
        tm }

/-- Number of in-heap entries whose timer is in state Dispatch; an upper bound on
the iterations of the `dispatch_timers` loop. -/
def countDispatch (s : LoopState) : Nat :=
  (s.heap.filter fun i => (s.timers i).state = .Dispatch).length

/-- `EventLoop::dispatch_timers` (EventLoop.cpp lines 142-162), with explicit
recursion fuel bounding the loop iterations (the loop terminates because each
iteration moves the Dispatch root to TempUnset and handlers never produce state
Dispatch).  `th i` is the script run by timer `i`'s `handleTimerExpired`. -/
def dispatch_timers (th : Nat → List HandlerOp) : Nat → LoopState → LoopState × Bool
  | 0, s => (s, true)
  | fuel + 1, s =>
    match heapFirst s.timers s.heap with
    | none => (s, true)
    | some i =>
      if (s.timers i).state ≠ .Dispatch then
        (s, true)
      else
        let s1 := setTimer s i { s.timers i with state := .TempUnset }
        let s2 := { s1 with trace := s1.trace ++ [.fixupE i, .firedTimer i] }
        let s3 := applyOps (th i) s2
        if s3.stop then (s3, false) else dispatch_timers th fuel s3

/-- `dispatch_timers` run with sufficient fuel. -/
def dispatchTimersRun (th : Nat → List HandlerOp) (s : LoopState) : LoopState × Bool :=
  dispatch_timers th (countDispatch s + 1) s

/-- The loop of `EventLoop::prepare_timers_for_wait` (EventLoop.cpp lines
166-184), with fuel bounding the iterations (each iteration removes a heap entry
or turns a TempSet timer into Pending).  Returns `first_time` and the state. -/
def prepareWaitLoop : Nat → LoopState → Nat × LoopState
  | 0, s => (timeMax, s)
  | fuel + 1, s =>
    match heapFirst s.timers s.heap with
    | none => (timeMax, s)
    | some i =>
      let tm := s.timers i
      if tm.state = .TempUnset then
        let s1 : LoopState :=
          { s with heap := s.heap.erase i, trace := s.trace ++ [.removeE i] }
        prepareWaitLoop fuel (setTimer s1 i { tm with state := .Idle })
      else if tm.state = .TempSet then
        let s1 := setTimer s i { tm with state := .Pending }
        prepareWaitLoop fuel { s1 with trace := s1.trace ++ [.fixupE i] }
      else
        (tm.time, s)

/-- `EventLoop::prepare_timers_for_wait` (EventLoop.cpp lines 164-190): run the
loop, compute `time_changed = (first_time != m_last_wait_time)`, record the new
`m_last_wait_time`, and return `{first_time, time_changed}`. -/
def prepare_timers_for_wait (s : LoopState) : (Nat × Bool) × LoopState :=
  let r := prepareWaitLoop (2 * s.heap.length + 1) s
  let time_changed := r.1 ≠ s.last_wait_time
  ((r.1, time_changed), { r.2 with last_wait_time := r.1 })

/-- The drain loop of `EventLoop::dispatch_async_signals` (EventLoop.cpp lines
205-227), with fuel bounding the iterations (each iteration unlinks the front
node of `m_dispatch_async_list`, and no operation links nodes into it).  `sh i`
is the script run by signal `i`'s handler. -/
def dispatchSigLoop (sh : Nat → List HandlerOp) : Nat → LoopState → LoopState × Bool
  | 0, s => (s, true)
  | fuel + 1, s =>
    match s.dispatchL with
    | [] => (s, true)
    | n :: rest =>
      let s1 := { s with dispatchL := rest, trace := s.trace ++ [.firedSignal n] }
      let s2 := applyOps (sh n) s1
      if s2.stop then (s2, false) else dispatchSigLoop sh fuel s2

/-- `EventLoop::dispatch_async_signals` (EventLoop.cpp lines 192-230): if
`m_pending_async_list` is lonely, return true; otherwise splice it into
`m_dispatch_async_list`, reinitialize the pending list as lonely, and drain. -/
def dispatch_async_signals (sh : Nat → List HandlerOp) (s : LoopState) :
    LoopState × Bool :=
  if s.pending.isEmpty then
    (s, true)
  else
    let s1 := { s with dispatchL := s.pending, pending := [] }
    dispatchSigLoop sh (s1.dispatchL.length + 1) s1

/-- Modelled from the spec: the OS readiness provider (`EventProvider`, spec
§4.D) is platform code not among the given sources.  `dispatch_events()` invokes
the fd handlers the OS reported (here: this iteration's oracle script `fdOps`)
and drains async signals by calling back the loop's `dispatch_async_signals`;
it returns false iff stop was observed during dispatch. -/
def providerDispatchEvents (sh : Nat → List HandlerOp) (fdOps : List HandlerOp)
    (s : LoopState) : LoopState × Bool :=
  let s1 := applyOps fdOps s
  if s1.stop then (s1, false) else dispatch_async_signals sh s1

/-- Modelled from the spec: the provider's `wait(deadline, deadline_changed)`
blocks until the deadline, an fd event or a wakeup; in the model its only
observable effect is the ghost record of the timeout info it was given. -/
def waitForEvents (ti : Nat × Bool) (s : LoopState) : LoopState :=
  { s with trace := s.trace ++ [.waitE ti.1 ti.2] }

/-- The `while (true)` body of `EventLoop::run` (EventLoop.cpp lines 107-123),
iterated with fuel (the real loop exits only through the stop checks).
`clock k` is the instant `getTime()` returns at iteration `k`; `fdOps k` is the
oracle of fd-handler work the provider dispatches at iteration `k`. -/
def runLoop (clock : Nat → Nat) (th sh : Nat → List HandlerOp)
    (fdOps : Nat → List HandlerOp) : Nat → Nat → LoopState → LoopState
  | 0, _, s => s
  | fuel + 1, k, s =>
    let s1 := { s with event_time := clock k }
    let s2 := prepare_timers_for_dispatch s1.event_time s1
    let r3 := dispatchTimersRun th s2
    if r3.2 = false then r3.1
    else
      let r4 := providerDispatchEvents sh (fdOps k) r3.1
      if r4.2 = false then r4.1
      else
        let r5 := prepare_timers_for_wait r4.1
        runLoop clock th sh fdOps fuel (k + 1) (waitForEvents r5.1 r5.2)

/-- `EventLoop::run` (EventLoop.cpp lines 101-124): return immediately if
`m_stop` is already set, else enter the iteration loop. -/
def run (clock : Nat → Nat) (th sh : Nat → List HandlerOp)
    (fdOps : Nat → List HandlerOp) (fuel : Nat) (s : LoopState) : LoopState :=
  if s.stop then s else runLoop clock th sh fdOps fuel 0 s

/-- An empty loop state, used to instantiate claims on concrete inputs
(fresh loop per the `EventLoop` constructor: no timers armed, both signal lists
lonely, `m_last_wait_time = EventLoopTime::max()`). -/
def baseState : LoopState :=
  { timers := fun _ => mkTimer
    heap := []
    stop := false
    event_time := 0
    last_wait_time := timeMax
    pending := []
    dispatchL := []
    trace := [] }

/-- A ghost-trace fragment containing no handler-invocation events. -/
def quietEvs (tl : List Ev) : Prop :=
  ∀ i, Ev.firedTimer i ∉ tl ∧ Ev.firedSignal i ∉ tl

@[simp]
theorem setTimer_timers (s : LoopState) (i : Nat) (tm : Timer) (j : Nat) :
    (setTimer s i tm).timers j = if j = i then tm else s.timers j := rfl

@[simp]
theorem setTimer_heap (s : LoopState) (i : Nat) (tm : Timer) :
    (setTimer s i tm).heap = s.heap := rfl

@[simp]
theorem setTimer_trace (s : LoopState) (i : Nat) (tm : Timer) :
    (setTimer s i tm).trace = s.trace := rfl

@[simp]
theorem setTimer_stop (s : LoopState) (i : Nat) (tm : Timer) :
    (setTimer s i tm).stop = s.stop := rfl

@[simp]
theorem setTimer_pending (s : LoopState) (i : Nat) (tm : Timer) :
    (setTimer s i tm).pending = s.pending := rfl

@[simp]
theorem setTimer_dispatchL (s : LoopState) (i : Nat) (tm : Timer) :
    (setTimer s i tm).dispatchL = s.dispatchL := rfl

/-- No handler operation can put any timer into state Dispatch: if a timer is in
Dispatch after an operation, it already was before. -/
theorem applyOp_dispatch_mono (op : HandlerOp) (s : LoopState) (i : Nat)
    (h : ((applyOp op s).timers i).state = .Dispatch) :
    (s.timers i).state = .Dispatch := by
  cases op with
  | hSetAt j t =>
      simp only [applyOp, setAt] at h
      split at h
      · rcases h' : decide (i = j) with _ | _ <;> simp_all [setTimer]
      · split at h <;>
          · rcases h' : decide (i = j) with _ | _ <;> simp_all [setTimer]
  | hSetAfter j d =>
      simp only [applyOp, setAfter, setAt] at h
      split at h
      · rcases h' : decide (i = j) with _ | _ <;> simp_all [setTimer]
      · split at h <;>
          · rcases h' : decide (i = j) with _ | _ <;> simp_all [setTimer]
  | hUnset j =>
      simp only [applyOp, unset] at h
      split at h
      · rcases h' : decide (i = j) with _ | _ <;> simp_all [setTimer]
      · split at h
        · rcases h' : decide (i = j) with _ | _ <;> simp_all [setTimer]
        · exact h
  | hStop => exact h
  | hSignal j =>
      simp only [applyOp, signal] at h
      split at h
      · split at h <;> exact h
      · exact h
  | hResetSig j =>
      simp only [applyOp, resetSig] at h
      split at h <;> exact h

/-- Script version of `applyOp_dispatch_mono`. -/
theorem applyOps_dispatch_mono (ops : List HandlerOp) (s : LoopState) (i : Nat)
    (h : ((applyOps ops s).timers i).state = .Dispatch) :
    (s.timers i).state = .Dispatch := by
  induction ops generalizing s with
  | nil => exact h
  | cons op rest ih =>
      exact applyOp_dispatch_mono op s i (ih (applyOp op s) h)

theorem quietEvs_nil : quietEvs [] := by
  simp [quietEvs]

theorem quietEvs_append (tl1 tl2 : List Ev) (h1 : quietEvs tl1) (h2 : quietEvs tl2) :
    quietEvs (tl1 ++ tl2) := by
  intro i
  simp only [List.mem_append, not_or]
  exact ⟨⟨(h1 i).1, (h2 i).1⟩, ⟨(h1 i).2, (h2 i).2⟩⟩

theorem quietEvs_count_firedTimer (tl : List Ev) (h : quietEvs tl) (i : Nat) :
    tl.count (Ev.firedTimer i) = 0 :=
  List.count_eq_zero.mpr (h i).1

theorem quietEvs_count_firedSignal (tl : List Ev) (h : quietEvs tl) (i : Nat) :
    tl.count (Ev.firedSignal i) = 0 :=
  List.count_eq_zero.mpr (h i).2

/-- Every handler operation only appends to the ghost trace, and never appends
a handler-invocation event. -/
theorem applyOp_trace (op : HandlerOp) (s : LoopState) :
    ∃ tl, (applyOp op s).trace = s.trace ++ tl ∧ quietEvs tl := by
  cases op with
  | hSetAt j t =>
      simp only [applyOp, setAt]
      split
      · exact ⟨[], by simp, quietEvs_nil⟩
      · split
        · exact ⟨[Ev.insertE j], by simp, by simp [quietEvs]⟩
        · exact ⟨[Ev.fixupE j], by simp, by simp [quietEvs]⟩
  | hSetAfter j d =>
      simp only [applyOp, setAfter, setAt]
      split
      · exact ⟨[], by simp, quietEvs_nil⟩
      · split
        · exact ⟨[Ev.insertE j], by simp, by simp [quietEvs]⟩
        · exact ⟨[Ev.fixupE j], by simp, by simp [quietEvs]⟩
  | hUnset j =>
      simp only [applyOp, unset]
      split
      · exact ⟨[], by simp, quietEvs_nil⟩
      · split
        · exact ⟨[Ev.removeE j], by simp, by simp [quietEvs]⟩
        · exact ⟨[], by simp, quietEvs_nil⟩
  | hStop => exact ⟨[], by simp [applyOp], quietEvs_nil⟩
  | hSignal j =>
      simp only [applyOp, signal]
      split
      · split
        · exact ⟨[Ev.wakeup], by simp, by simp [quietEvs]⟩
        · exact ⟨[], by simp, quietEvs_nil⟩
      · exact ⟨[], by simp, quietEvs_nil⟩
  | hResetSig j =>
      simp only [applyOp, resetSig]
      split
      · exact ⟨[], by simp, quietEvs_nil⟩
      · exact ⟨[], by simp, quietEvs_nil⟩

/-- Script version of `applyOp_trace`. -/
theorem applyOps_trace (ops : List HandlerOp) (s : LoopState) :
    ∃ tl, (applyOps ops s).trace = s.trace ++ tl ∧ quietEvs tl := by
  induction ops generalizing s with
  | nil => exact ⟨[], by simp [applyOps], quietEvs_nil⟩
  | cons op rest ih =>
      obtain ⟨tl1, e1, q1⟩ := applyOp_trace op s
      obtain ⟨tl2, e2, q2⟩ := ih (applyOp op s)
      refine ⟨tl1 ++ tl2, ?_, quietEvs_append tl1 tl2 q1 q2⟩
      have : applyOps (op :: rest) s = applyOps rest (applyOp op s) := rfl
      rw [this, e2, e1, List.append_assoc]

/-- Only `hStop` modifies the stop flag. -/
theorem applyOp_stop_eq (op : HandlerOp) (s : LoopState) (h : op ≠ .hStop) :
    (applyOp op s).stop = s.stop := by
  cases op with
  | hSetAt j t =>
      simp only [applyOp, setAt]
      split
      · simp
      · split <;> simp
  | hSetAfter j d =>
      simp only [applyOp, setAfter, setAt]
      split
      · simp
      · split <;> simp
  | hUnset j =>
      simp only [applyOp, unset]
      split
      · simp
      · split <;> simp
  | hStop => exact absurd rfl h
  | hSignal j =>
      simp only [applyOp, signal]
      split
      · split <;> simp
      · simp
  | hResetSig j =>
      simp only [applyOp, resetSig]
      split <;> simp

/-- A script containing no `hStop` leaves the stop flag unchanged. -/
theorem applyOps_stop_eq (ops : List HandlerOp) (s : LoopState)
    (h : HandlerOp.hStop ∉ ops) :
    (applyOps ops s).stop = s.stop := by
  induction ops generalizing s with
  | nil => rfl
  | cons op rest ih =>
      have hop : op ≠ .hStop := fun he => h (he ▸ List.mem_cons_self op rest)
      have hrest : HandlerOp.hStop ∉ rest := fun hm => h (List.mem_cons_of_mem op hm)
      have : applyOps (op :: rest) s = applyOps rest (applyOp op s) := rfl
      rw [this, ih (applyOp op s) hrest, applyOp_stop_eq op s hop]

/-- No handler operation links nodes into the dispatch list: its length never
grows. -/
theorem applyOp_dispatchL_len (op : HandlerOp) (s : LoopState) :
    (applyOp op s).dispatchL.length ≤ s.dispatchL.length := by
  cases op with
  | hSetAt j t =>
      simp only [applyOp, setAt]
      split
      · simp
      · split <;> simp
  | hSetAfter j d =>
      simp only [applyOp, setAfter, setAt]
      split
      · simp
      · split <;> simp
  | hUnset j =>
      simp only [applyOp, unset]
      split
      · simp
      · split <;> simp
  | hStop => exact le_refl _
  | hSignal j =>
      simp only [applyOp, signal]
      split
      · split <;> simp
      · simp
  | hResetSig j =>
      simp only [applyOp, resetSig]
      split
      · simp
      · exact List.length_erase_le _ _

/-- Script version of `applyOp_dispatchL_len`. -/
theorem applyOps_dispatchL_len (ops : List HandlerOp) (s : LoopState) :
    (applyOps ops s).dispatchL.length ≤ s.dispatchL.length := by
  induction ops generalizing s with
  | nil => exact le_refl _
  | cons op rest ih =>
      exact le_trans (ih (applyOp op s)) (applyOp_dispatchL_len op s)

/-- A handler operation other than resetting signal `i` itself preserves the
multiplicity of `i` on the dispatch list. -/
theorem applyOp_dispatchL_count (op : HandlerOp) (s : LoopState) (i : Nat)
    (h : op ≠ .hResetSig i) :
    (applyOp op s).dispatchL.count i = s.dispatchL.count i := by
  cases op with
  | hSetAt j t =>
      simp only [applyOp, setAt]
      split
      · simp
      · split <;> simp
  | hSetAfter j d =>
      simp only [applyOp, setAfter, setAt]
      split
      · simp
      · split <;> simp
  | hUnset j =>
      simp only [applyOp, unset]
      split
      · simp
      · split <;> simp
  | hStop => rfl
  | hSignal j =>
      simp only [applyOp, signal]
      split
      · split <;> simp
      · rfl
  | hResetSig j =>
      have hij : i ≠ j := fun he => h (by rw [he])
      simp only [applyOp, resetSig]
      split
      · rfl
      · exact List.count_erase_of_ne hij _

/-- Script version of `applyOp_dispatchL_count`. -/
theorem applyOps_dispatchL_count (ops : List HandlerOp) (s : LoopState) (i : Nat)
    (h : HandlerOp.hResetSig i ∉ ops) :
    (applyOps ops s).dispatchL.count i = s.dispatchL.count i := by
  induction ops generalizing s with
  | nil => rfl
  | cons op rest ih =>
      have hop : op ≠ .hResetSig i := fun he => h (he ▸ List.mem_cons_self op rest)
      have hrest : HandlerOp.hResetSig i ∉ rest := fun hm => h (List.mem_cons_of_mem op hm)
      have : applyOps (op :: rest) s = applyOps rest (applyOp op s) := rfl
      rw [this, ih (applyOp op s) hrest, applyOp_dispatchL_count op s i hop]

/-- `dispatch_timers` returns false only with the stop flag set. -/
theorem dispatch_timers_false_stop (th : Nat → List HandlerOp) :
    ∀ fuel s, (dispatch_timers th fuel s).2 = false →
      (dispatch_timers th fuel s).1.stop = true := by
  intro fuel
  induction fuel with
  | zero => intro s h; simp [dispatch_timers] at h
  | succ fuel ih =>
      intro s
      simp only [dispatch_timers]
      rcases hf : heapFirst s.timers s.heap with _ | i
      · simp
      · simp only []
        split_ifs with h1 h2
        · simp
        · intro
          exact h2
        · exact ih _

/-- The signal drain loop returns false only with the stop flag set. -/
theorem dispatchSigLoop_false_stop (sh : Nat → List HandlerOp) :
    ∀ fuel s, (dispatchSigLoop sh fuel s).2 = false →
      (dispatchSigLoop sh fuel s).1.stop = true := by
  intro fuel
  induction fuel with
  | zero => intro s h; simp [dispatchSigLoop] at h
  | succ fuel ih =>
      intro s
      simp only [dispatchSigLoop]
      rcases hd : s.dispatchL with _ | ⟨n, rest⟩
      · simp
      · simp only []
        split_ifs with h1
        · intro
          exact h1
        · exact ih _

/-- `dispatch_async_signals` returns false only with the stop flag set. -/
theorem dispatch_async_signals_false_stop (sh : Nat → List HandlerOp)
    (s : LoopState) (h : (dispatch_async_signals sh s).2 = false) :
    (dispatch_async_signals sh s).1.stop = true := by
  simp only [dispatch_async_signals] at h ⊢
  split_ifs at h ⊢
  exact dispatchSigLoop_false_stop sh _ _ h

/-- The provider's dispatch returns false only with the stop flag set. -/
theorem providerDispatchEvents_false_stop (sh : Nat → List HandlerOp)
    (fdOps : List HandlerOp) (s : LoopState)
    (h : (providerDispatchEvents sh fdOps s).2 = false) :
    (providerDispatchEvents sh fdOps s).1.stop = true := by
  simp only [providerDispatchEvents] at h ⊢
  split_ifs at h ⊢ with h1
  · exact h1
  · exact dispatch_async_signals_false_stop sh _ h

/-- When the drain loop has enough fuel and returns true, it has emptied the
dispatch list. -/
theorem dispatchSigLoop_true_nil (sh : Nat → List HandlerOp) :
    ∀ fuel s, s.dispatchL.length < fuel →
      (dispatchSigLoop sh fuel s).2 = true →
      (dispatchSigLoop sh fuel s).1.dispatchL = [] := by
  intro fuel
  induction fuel with
  | zero => intro s h; omega
  | succ fuel ih =>
      intro s hlen
      simp only [dispatchSigLoop]
      rcases hd : s.dispatchL with _ | ⟨n, rest⟩
      · intro
        exact hd
      · simp only []
        split_ifs with h1
        · simp
        · intro htrue
          refine ih _ ?_ htrue
          have hle := applyOps_dispatchL_len (sh n)
            { s with dispatchL := rest, trace := s.trace ++ [Ev.firedSignal n] }
          simp only at hle
          have : rest.length < fuel := by
            rw [hd] at hlen
            simpa using Nat.lt_of_succ_lt_succ hlen
          omega

/-- `dispatch_timers` appends to the trace a batch of events in which each timer
fires at most once, and only timers that were in state Dispatch on entry fire. -/
theorem dispatch_timers_fired (th : Nat → List HandlerOp) :
    ∀ fuel s, ∃ new, (dispatch_timers th fuel s).1.trace = s.trace ++ new ∧
      ∀ j, new.count (Ev.firedTimer j) ≤ 1 ∧
        (1 ≤ new.count (Ev.firedTimer j) → (s.timers j).state = .Dispatch) := by
  intro fuel
  induction fuel with
  | zero =>
      intro s
      exact ⟨[], by simp [dispatch_timers], fun j => ⟨by simp, by simp⟩⟩
  | succ fuel ih =>
      intro s
      rcases hf : heapFirst s.timers s.heap with _ | i
      · exact ⟨[], by simp [dispatch_timers, hf], fun j => ⟨by simp, by simp⟩⟩
      by_cases hd : (s.timers i).state = .Dispatch
      case neg =>
        exact ⟨[], by simp [dispatch_timers, hf, hd], fun j => ⟨by simp, by simp⟩⟩
      case pos =>
        simp only [dispatch_timers, hf, hd, ne_eq, not_true_eq_false, if_false,
          ite_false, reduceIte]
        obtain ⟨tl, htl, hquiet⟩ := applyOps_trace (th i)
          { setTimer s i { s.timers i with state := .TempUnset } with
              trace := (setTimer s i
                { s.timers i with state := .TempUnset }).trace
                ++ [Ev.fixupE i, Ev.firedTimer i] }
        have htrace2 : (applyOps (th i)
            { setTimer s i { s.timers i with state := .TempUnset } with
                trace := (setTimer s i
                  { s.timers i with state := .TempUnset }).trace
                  ++ [Ev.fixupE i, Ev.firedTimer i] }).trace =
            s.trace ++ ([Ev.fixupE i, Ev.firedTimer i] ++ tl) := by
          rw [htl]
          simp
        have hnotdisp : ∀ j, ((applyOps (th i)
            { setTimer s i { s.timers i with state := .TempUnset } with
                trace := (setTimer s i
                  { s.timers i with state := .TempUnset }).trace
                  ++ [Ev.fixupE i, Ev.firedTimer i] }).timers j).state = .Dispatch →
            j ≠ i ∧ (s.timers j).state = .Dispatch := by
          intro j hj
          have hj2 := applyOps_dispatch_mono _ _ _ hj
          by_cases hji : j = i
          · subst hji
            simp at hj2
          · refine ⟨hji, ?_⟩
            simpa [hji] using hj2
        split_ifs with hstop
        · refine ⟨[Ev.fixupE i, Ev.firedTimer i] ++ tl, htrace2, fun j => ?_⟩
          have hq := quietEvs_count_firedTimer tl hquiet j
          by_cases hji : j = i
          · subst hji
            constructor
            · simp [List.count_append, List.count_cons, hq]
            · intro
              exact hd
          · constructor
            · simp [List.count_append, List.count_cons, hq, hji]
            · intro hc
              exfalso
              simp [List.count_append, List.count_cons, hq, hji] at hc
        · obtain ⟨new2, e2, p2⟩ := ih (applyOps (th i)
            { setTimer s i { s.timers i with state := .TempUnset } with
                trace := (setTimer s i
                  { s.timers i with state := .TempUnset }).trace
                  ++ [Ev.fixupE i, Ev.firedTimer i] })
          refine ⟨[Ev.fixupE i, Ev.firedTimer i] ++ tl ++ new2, ?_, fun j => ?_⟩
          · rw [e2, htrace2]
            simp
          · have hq := quietEvs_count_firedTimer tl hquiet j
            by_cases hji : j = i
            · subst hji
              have hzero : new2.count (Ev.firedTimer j) = 0 := by
                by_contra hne
                have h1 : 1 ≤ new2.count (Ev.firedTimer j) := by omega
                have := (hnotdisp j ((p2 j).2 h1)).1
                exact this rfl
              constructor
              · simp [List.count_append, List.count_cons, hq, hzero]
              · intro
                exact hd
            · have hcnt : ([Ev.fixupE i, Ev.firedTimer i] ++ tl ++ new2).count
                  (Ev.firedTimer j) = new2.count (Ev.firedTimer j) := by
                simp [List.count_append, List.count_cons, hq, hji]
              rw [hcnt]
              refine ⟨(p2 j).1, fun hc => ?_⟩
              exact (hnotdisp j ((p2 j).2 hc)).2

/-- `signal()` on a node that is already queued on either list is a no-op. -/
theorem signal_queued_noop (i : Nat) (s : LoopState)
    (h : isRemovedSig i s = false) : signal i s = s := by
  simp [signal, h]

/-- `signal()` on a removed node appends it at the tail of the pending list. -/
theorem signal_removed_pending (i : Nat) (s : LoopState)
    (h : isRemovedSig i s = true) :
    (signal i s).pending = s.pending ++ [i] := by
  simp only [signal, h, if_true]
  split_ifs <;> rfl

/-- `signal()` never touches the stop flag. -/
theorem signal_stop (i : Nat) (s : LoopState) : (signal i s).stop = s.stop := by
  simp only [signal]
  split_ifs <;> rfl

/-- `signal()` never touches the dispatch list. -/
theorem signal_dispatchL (i : Nat) (s : LoopState) :
    (signal i s).dispatchL = s.dispatchL := by
  simp only [signal]
  split_ifs <;> rfl

/-- `signal()` appends at most a wakeup event, so handler-invocation counts in
the trace are unchanged. -/
theorem signal_trace_count (i j : Nat) (s : LoopState) :
    (signal i s).trace.count (Ev.firedSignal j) =
      s.trace.count (Ev.firedSignal j) := by
  simp only [signal]
  split_ifs <;> simp [List.count_append, List.count_cons]

/-- A removed node is not on the pending list. -/
theorem isRemovedSig_not_mem_pending (i : Nat) (s : LoopState)
    (h : isRemovedSig i s = true) : i ∉ s.pending := by
  simp only [isRemovedSig, Bool.and_eq_true, Bool.not_eq_true'] at h
  intro hmem
  have h1 := h.1
  simp [hmem] at h1

/-- After one `signal()` the node is queued, so it is no longer removed. -/
theorem signal_not_removed (i : Nat) (s : LoopState)
    (h : isRemovedSig i s = true) :
    isRemovedSig i (signal i s) = false := by
  have hp := signal_removed_pending i s h
  simp only [isRemovedSig, Bool.and_eq_true, Bool.not_eq_true']
  rw [hp]
  simp

/-- After `N ≥ 1` calls to `signal()` on a removed node, the node is on the
pending list exactly once. -/
theorem signal_iterate_count (i : Nat) (s : LoopState)
    (h : isRemovedSig i s = true) (N : Nat) (hN : 1 ≤ N) :
    ((signal i)^[N] s).pending.count i = 1 ∧
    (signal i)^[N] s = signal i s := by
  obtain ⟨k, rfl⟩ : ∃ k, N = k + 1 := ⟨N - 1, by omega⟩
  have hfix : ∀ m, (signal i)^[m] (signal i s) = signal i s := by
    intro m
    induction m with
    | zero => rfl
    | succ m ih =>
        rw [Function.iterate_succ_apply', ih,
          signal_queued_noop i _ (signal_not_removed i s h)]
  have heq : (signal i)^[k + 1] s = signal i s := by
    rw [Function.iterate_succ_apply, hfix]
  refine ⟨?_, heq⟩
  rw [heq, signal_removed_pending i s h]
  have h0 : s.pending.count i = 0 :=
    List.count_eq_zero.mpr (isRemovedSig_not_mem_pending i s h)
  simp [List.count_append, List.count_cons, h0]

/-- The drain loop with enough fuel, a clear stop flag, and handlers that never
stop the loop nor reset signal `i`, fires signal `i` exactly as often as `i`
occurs on the dispatch list. -/
theorem dispatchSigLoop_count (sh : Nat → List HandlerOp) (i : Nat)
    (hsh : ∀ j, HandlerOp.hStop ∉ sh j ∧ HandlerOp.hResetSig i ∉ sh j) :
    ∀ fuel s, s.dispatchL.length < fuel → s.stop = false →
      (dispatchSigLoop sh fuel s).1.trace.count (Ev.firedSignal i) =
        s.trace.count (Ev.firedSignal i) + s.dispatchL.count i := by
  intro fuel
  induction fuel with
  | zero => intro s h; omega
  | succ fuel ih =>
      intro s hlen hstop
      rcases hd : s.dispatchL with _ | ⟨n, rest⟩
      · simp [dispatchSigLoop, hd]
      · simp only [dispatchSigLoop, hd]
        have hstop2 : (applyOps (sh n)
            { s with
                dispatchL := rest,
                trace := s.trace ++ [Ev.firedSignal n] }).stop = false := by
          rw [applyOps_stop_eq _ _ (hsh n).1]
          exact hstop
        rw [if_neg (by simp [hstop2])]
        have hlen2 : (applyOps (sh n)
            { s with
                dispatchL := rest,
                trace := s.trace ++ [Ev.firedSignal n] }).dispatchL.length < fuel := by
          have hle := applyOps_dispatchL_len (sh n)
            { s with dispatchL := rest, trace := s.trace ++ [Ev.firedSignal n] }
          simp only at hle
          rw [hd] at hlen
          simp at hlen
          omega
        rw [ih _ hlen2 hstop2]
        obtain ⟨tl, htl, hq⟩ := applyOps_trace (sh n)
          { s with dispatchL := rest, trace := s.trace ++ [Ev.firedSignal n] }
        rw [htl]
        have hcq := quietEvs_count_firedSignal tl hq i
        have hdc := applyOps_dispatchL_count (sh n)
          { s with dispatchL := rest, trace := s.trace ++ [Ev.firedSignal n] }
          i (hsh n).2
        rw [hdc]
        simp only at hdc ⊢
        simp [List.count_append, List.count_cons, hcq]
        omega

/-- `dispatch_async_signals` under the same conditions fires signal `i` exactly
as often as `i` occurs on the pending list it drains. -/
theorem dispatch_async_signals_count (sh : Nat → List HandlerOp) (i : Nat)
    (hsh : ∀ j, HandlerOp.hStop ∉ sh j ∧ HandlerOp.hResetSig i ∉ sh j)
    (s : LoopState) (hstop : s.stop = false) :
    (dispatch_async_signals sh s).1.trace.count (Ev.firedSignal i) =
      s.trace.count (Ev.firedSignal i) + s.pending.count i := by
  simp only [dispatch_async_signals]
  split_ifs with hp
  · have : s.pending = [] := List.isEmpty_iff.mp hp
    simp [this]
  · rw [dispatchSigLoop_count sh i hsh _
      { s with dispatchL := s.pending, pending := [] } (by simp) (by simp [hstop])]

/-- A handler operation keeps an empty dispatch list empty. -/
theorem applyOp_dispatchL_nil (op : HandlerOp) (s : LoopState)
    (h : s.dispatchL = []) : (applyOp op s).dispatchL = [] := by
  have hl := applyOp_dispatchL_len op s
  rw [h] at hl
  simp at hl
  exact hl

/-- A handler script keeps an empty dispatch list empty. -/
theorem applyOps_dispatchL_nil (ops : List HandlerOp) (s : LoopState)
    (h : s.dispatchL = []) : (applyOps ops s).dispatchL = [] := by
  have hl := applyOps_dispatchL_len ops s
  rw [h] at hl
  simp at hl
  exact hl

/-- Timer dispatch keeps an empty dispatch list empty. -/
theorem dispatch_timers_dispatchL_nil (th : Nat → List HandlerOp) :
    ∀ fuel s, s.dispatchL = [] →
      (dispatch_timers th fuel s).1.dispatchL = [] := by
  intro fuel
  induction fuel with
  | zero => intro s h; exact h
  | succ fuel ih =>
      intro s h
      simp only [dispatch_timers]
      rcases hf : heapFirst s.timers s.heap with _ | i
      · exact h
      · simp only []
        split_ifs with h1 h2
        · exact h
        · exact applyOps_dispatchL_nil _ _ (by simp [h])
        · exact ih _ (applyOps_dispatchL_nil _ _ (by simp [h]))

/-- The finalize loop never touches the dispatch list. -/
theorem prepareWaitLoop_dispatchL :
    ∀ fuel s, (prepareWaitLoop fuel s).2.dispatchL = s.dispatchL := by
  intro fuel
  induction fuel with
  | zero => intro s; rfl
  | succ fuel ih =>
      intro s
      simp only [prepareWaitLoop]
      rcases hf : heapFirst s.timers s.heap with _ | i
      · rfl
      · simp only []
        split_ifs with h1 h2
        · rw [ih]
          rfl
        · rw [ih]
          rfl
        · rfl

/-- `prepare_timers_for_wait` never touches the dispatch list. -/
theorem prepare_timers_for_wait_dispatchL (s : LoopState) :
    (prepare_timers_for_wait s).2.dispatchL = s.dispatchL := by
  simp only [prepare_timers_for_wait]
  exact prepareWaitLoop_dispatchL _ _

/-- Unfolded form of the comparator (the C++ locals `order1`, `order2` inlined). -/
theorem compareEntries_eq (tim1 tim2 : Timer) :
    compareEntries tim1 tim2 =
      if tim1.state.order ≠ tim2.state.order then
        if tim1.state.order < tim2.state.order then -1 else 1
      else if tim1.time ≠ tim2.time then
        if tim1.time < tim2.time then -1 else 1
      else 0 := rfl

/-- C1: `setAt(t)` first records deadline `t`, then: from TempUnset or TempSet the
state becomes TempSet and the heap is not touched (no insert, remove, or fixup);
from Idle the state becomes Pending and the timer is inserted into the heap; from
Dispatch or Pending the state becomes Pending and `heap.fixup` is called on the
timer. -/
theorem C1_setAt_transitions (s : LoopState) (i t : Nat) :
    (((s.timers i).state = .TempUnset ∨ (s.timers i).state = .TempSet) →
      (setAt i t s).timers i = { state := .TempSet, time := t } ∧
      (setAt i t s).heap = s.heap ∧
      (setAt i t s).trace = s.trace) ∧
    ((s.timers i).state = .Idle →
      (setAt i t s).timers i = { state := .Pending, time := t } ∧
      (setAt i t s).heap = i :: s.heap ∧
      (setAt i t s).trace = s.trace ++ [Ev.insertE i]) ∧
    (((s.timers i).state = .Dispatch ∨ (s.timers i).state = .Pending) →
      (setAt i t s).timers i = { state := .Pending, time := t } ∧
      (setAt i t s).heap = s.heap ∧
      (setAt i t s).trace = s.trace ++ [Ev.fixupE i]) := by
  refine ⟨fun h => ?_, fun h => ?_, fun h => ?_⟩
  · rcases h with h | h <;> simp [setAt, h]
  · simp [setAt, h]
  · rcases h with h | h <;> simp [setAt, h]

theorem C1_setAt_transitions_witness :
    (((baseState.timers 0).state = .TempUnset ∨ (baseState.timers 0).state = .TempSet) ∨
        (baseState.timers 0).state = .Idle) ∧
    ((setAt 0 7 baseState).timers 0 = { state := .Pending, time := 7 } ∧
      (setAt 0 7 baseState).heap = 0 :: baseState.heap ∧
      (setAt 0 7 baseState).trace = baseState.trace ++ [Ev.insertE 0]) :=
  ⟨by decide, (C1_setAt_transitions baseState 0 7).2.1 (by decide)⟩

/-- C5 counterexample: the 2-bit order class of Dispatch is 1, not 0 (the enum
value of Dispatch is 1 and 1 & 3 = 1; the value 0 is Idle's class). -/
theorem C5_order_class_counterexample :
    TimerState.order .Dispatch = 1 ∧ ¬ TimerState.order .Dispatch = 0 := by
  decide

/-- C5 (amended): the heap comparator compares two timers by state-order class
first and by deadline second, returning 0 exactly when both the order class and
the deadline are equal and -1 exactly when the pair (class, deadline) is
lexicographically smaller; the 2-bit classes are Dispatch = 1,
TempUnset = TempSet = 2, Pending = 3, so Dispatch compares less than
TempUnset/TempSet, which compare less than Pending. -/
theorem C5_comparator_lex (tim1 tim2 : Timer) :
    (compareEntries tim1 tim2 = 0 ↔
      (tim1.state.order = tim2.state.order ∧ tim1.time = tim2.time)) ∧
    (compareEntries tim1 tim2 = -1 ↔
      (tim1.state.order < tim2.state.order ∨
        (tim1.state.order = tim2.state.order ∧ tim1.time < tim2.time))) ∧
    TimerState.order .Dispatch = 1 ∧
    TimerState.order .TempUnset = 2 ∧
    TimerState.order .TempSet = 2 ∧
    TimerState.order .Pending = 3 ∧
    TimerState.order .Dispatch < TimerState.order .TempUnset ∧
    TimerState.order .TempSet < TimerState.order .Pending := by
  refine ⟨?_, ?_, by decide, by decide, by decide, by decide, by decide, by decide⟩
  · rw [compareEntries_eq]
    split_ifs <;> constructor <;> intro h <;> first | exact h.elim | omega
  · rw [compareEntries_eq]
    split_ifs <;> constructor <;> intro h <;> first | exact h.elim | omega

/-- C4 counterexample: on a timer observed in state TempUnset (handler context),
`setAt(5)` followed by `unset()` leaves state TempUnset, not Idle, and the timer
stays in the heap. -/
theorem C4_counterexample :
    ((unset 0 (setAt 0 5 { baseState with
        timers := fun _ => { state := TimerState.TempUnset, time := 0 },
        heap := [0] })).timers 0).state = .TempUnset ∧
    TimerState.TempUnset ≠ TimerState.Idle ∧
    (unset 0 (setAt 0 5 { baseState with
        timers := fun _ => { state := TimerState.TempUnset, time := 0 },
        heap := [0] })).heap = [0] := by
  refine ⟨rfl, by decide, rfl⟩

/-- C4 (amended): `set_at(t); unset()` leaves the timer Idle (and out of the heap)
from every prior state except the handler-context states; from TempUnset or
TempSet the sequence leaves the timer in state TempUnset — still in the heap but
observably not set (finalize will remove it and make it Idle). -/
theorem C4_setAt_then_unset (s : LoopState) (i t : Nat)
    (hcount : s.heap.count i ≤ 1)
    (hidle : (s.timers i).state = .Idle → i ∉ s.heap) :
    (((s.timers i).state = .TempUnset ∨ (s.timers i).state = .TempSet) →
      ((unset i (setAt i t s)).timers i).state = .TempUnset ∧
      Timer.isSet ((unset i (setAt i t s)).timers i) = false ∧
      (unset i (setAt i t s)).heap = s.heap) ∧
    (((s.timers i).state = .Idle ∨ (s.timers i).state = .Dispatch ∨
        (s.timers i).state = .Pending) →
      ((unset i (setAt i t s)).timers i).state = .Idle ∧
      i ∉ (unset i (setAt i t s)).heap) := by
  constructor
  · intro h
    rcases h with h | h <;> simp [setAt, unset, h, Timer.isSet]
  · intro h
    rcases h with h | h | h
    · have hmem := hidle h
      simp only [setAt, unset]
      simp [h, List.erase_cons_head, hmem]
    · simp only [setAt, unset]
      simp [h]
      rw [← List.count_eq_zero, List.count_erase_self]
      omega
    · simp only [setAt, unset]
      simp [h]
      rw [← List.count_eq_zero, List.count_erase_self]
      omega

theorem C4_setAt_then_unset_witness :
    (([0] : List Nat).count 0 ≤ 1 ∧
      ((TimerState.Pending = TimerState.Idle → (0 : Nat) ∉ ([0] : List Nat)) →
        True)) ∧
    ((({ baseState with
          timers := fun _ => { state := TimerState.Pending, time := 3 },
          heap := [0] } : LoopState).timers 0).state = .Idle ∨
      (({ baseState with
          timers := fun _ => { state := TimerState.Pending, time := 3 },
          heap := [0] } : LoopState).timers 0).state = .Dispatch ∨
      (({ baseState with
          timers := fun _ => { state := TimerState.Pending, time := 3 },
          heap := [0] } : LoopState).timers 0).state = .Pending) ∧
    (((unset 0 (setAt 0 9 { baseState with
          timers := fun _ => { state := TimerState.Pending, time := 3 },
          heap := [0] })).timers 0).state = .Idle ∧
      (0 : Nat) ∉ (unset 0 (setAt 0 9 { baseState with
          timers := fun _ => { state := TimerState.Pending, time := 3 },
          heap := [0] })).heap) :=
  ⟨⟨by decide, fun _ => trivial⟩, by decide,
    (C4_setAt_then_unset { baseState with
        timers := fun _ => { state := TimerState.Pending, time := 3 },
        heap := [0] } 0 9 (by decide) (by decide)).2 (by decide)⟩

/-- C9: `setAfter(d)` is `setAt(event_time + d)` with the loop's frozen event
time, and the time arithmetic saturates at the sentinel `Time::MAX` instead of
overflowing, for every duration `d`. -/
theorem C9_setAfter_saturates (s : LoopState) (i : Nat) (d : Int) :
    setAfter i d s = setAt i (satAdd s.event_time d) s ∧
    satAdd s.event_time d ≤ timeMax ∧
    ((timeMax : Int) ≤ (s.event_time : Int) + d → satAdd s.event_time d = timeMax) := by
  refine ⟨rfl, ?_, fun h => ?_⟩
  · simp only [satAdd]
    omega
  · simp only [satAdd]
    omega

theorem C9_setAfter_saturates_witness :
    ((timeMax : Int) ≤ ((baseState.event_time : Int) + (2 ^ 64 : Int)) ∧
      satAdd baseState.event_time (2 ^ 64) = timeMax) :=
  ⟨by decide, (C9_setAfter_saturates baseState 0 (2 ^ 64)).2.2 (by decide)⟩

/-- C2: `run()` returns immediately, without an iteration, when the stop flag is
already true on entry; otherwise each iteration performs, in order: sample the
clock into the frozen event time, transition every in-heap Pending timer with
deadline ≤ event time to Dispatch, dispatch due timer handlers (returning if
stop was set in a handler), dispatch OS events via the provider (returning if
stop was observed), finalize timer states obtaining the next deadline, and block
in the provider's wait. -/
theorem C2_run_structure (clock : Nat → Nat) (th sh : Nat → List HandlerOp)
    (fdOps : Nat → List HandlerOp) (fuel k : Nat) (s : LoopState) :
    (s.stop = true → run clock th sh fdOps fuel s = s) ∧
    (s.stop = false →
      run clock th sh fdOps fuel s = runLoop clock th sh fdOps fuel 0 s) ∧
    (runLoop clock th sh fdOps (fuel + 1) k s =
      (let s2 := prepare_timers_for_dispatch (clock k) { s with event_time := clock k }
       let r3 := dispatchTimersRun th s2
       if r3.2 = false then r3.1
       else
         let r4 := providerDispatchEvents sh (fdOps k) r3.1
         if r4.2 = false then r4.1
         else
           let r5 := prepare_timers_for_wait r4.1
           runLoop clock th sh fdOps fuel (k + 1) (waitForEvents r5.1 r5.2))) ∧
    (∀ now i, (prepare_timers_for_dispatch now s).timers i =
      (if i ∈ s.heap ∧ (s.timers i).state = .Pending ∧ (s.timers i).time ≤ now
       then { s.timers i with state := .Dispatch } else s.timers i)) ∧
    (∀ f, (dispatch_timers th f s).2 = false →
      (dispatch_timers th f s).1.stop = true) ∧
    (∀ ops, (providerDispatchEvents sh ops s).2 = false →
      (providerDispatchEvents sh ops s).1.stop = true) := by
  refine ⟨fun h => by simp [run, h], fun h => by simp [run, h], rfl,
    fun now i => rfl,
    fun f => dispatch_timers_false_stop th f s,
    fun ops => providerDispatchEvents_false_stop sh ops s⟩

theorem C2_run_structure_witness :
    ({ baseState with stop := true } : LoopState).stop = true ∧
    run (fun _ => 0) (fun _ => []) (fun _ => []) (fun _ => []) 5
      { baseState with stop := true } = { baseState with stop := true } :=
  ⟨rfl, (C2_run_structure (fun _ => 0) (fun _ => []) (fun _ => []) (fun _ => [])
      5 0 { baseState with stop := true }).1 rfl⟩

/-- C3: `prepare_timers_for_wait` repeatedly inspects the heap root: a TempUnset
root is removed from the heap and set to Idle; a TempSet root is set to Pending
and fixed up in the heap; a Pending root stops the loop with `first_time` equal
to its deadline; `first_time` is `Time::MAX` when the heap is empty; and the
returned `time_changed` flag is true exactly when `first_time` differs from the
last wait deadline communicated to the provider (which is then updated). -/
theorem C3_prepare_wait (s : LoopState) (fuel : Nat) :
    (heapFirst s.timers s.heap = none →
      prepareWaitLoop (fuel + 1) s = (timeMax, s)) ∧
    (∀ i, heapFirst s.timers s.heap = some i →
      ((s.timers i).state = .TempUnset →
        prepareWaitLoop (fuel + 1) s =
          prepareWaitLoop fuel
            (setTimer
              { s with
                  heap := s.heap.erase i,
                  trace := s.trace ++ [Ev.removeE i] }
              i { s.timers i with state := .Idle })) ∧
      ((s.timers i).state = .TempSet →
        prepareWaitLoop (fuel + 1) s =
          prepareWaitLoop fuel
            { setTimer s i { s.timers i with state := .Pending } with
                trace := s.trace ++ [Ev.fixupE i] }) ∧
      ((s.timers i).state = .Pending →
        prepareWaitLoop (fuel + 1) s = ((s.timers i).time, s))) ∧
    ((prepare_timers_for_wait s).1.2 =
      decide ((prepare_timers_for_wait s).1.1 ≠ s.last_wait_time)) ∧
    ((prepare_timers_for_wait s).2.last_wait_time =
      (prepare_timers_for_wait s).1.1) := by
  refine ⟨fun h => ?_, fun i hf => ⟨fun hSt => ?_, fun hSt => ?_, fun hSt => ?_⟩,
    rfl, rfl⟩
  · simp only [prepareWaitLoop]
    rw [h]
  · simp only [prepareWaitLoop]
    rw [hf]
    simp [hSt]
  · simp only [prepareWaitLoop]
    rw [hf]
    simp [hSt]
  · simp only [prepareWaitLoop]
    rw [hf]
    simp [hSt]

theorem C3_prepare_wait_witness :
    heapFirst ({ baseState with
        timers := fun _ => { state := TimerState.Pending, time := 42 },
        heap := [0] } : LoopState).timers [0] = some 0 ∧
    (({ baseState with
        timers := fun _ => { state := TimerState.Pending, time := 42 },
        heap := [0] } : LoopState).timers 0).state = .Pending ∧
    prepareWaitLoop 1 { baseState with
        timers := fun _ => { state := TimerState.Pending, time := 42 },
        heap := [0] } =
      (42, { baseState with
        timers := fun _ => { state := TimerState.Pending, time := 42 },
        heap := [0] }) :=
  ⟨by decide, by decide,
    ((C3_prepare_wait { baseState with
        timers := fun _ => { state := TimerState.Pending, time := 42 },
        heap := [0] } 0).2.1 0 (by decide)).2.2 (by decide)⟩

/-- C10: a freshly constructed timer stores the default-constructed
`EventLoopTime` (the clock epoch, tick 0), not the `Time::MAX` sentinel, and is
not set; `unset()` does not clear the stored deadline, so after
`setAt(t); unset()` the stored deadline is still `t`. -/
theorem C10_fresh_and_sticky_deadline (s : LoopState) (i t : Nat) :
    mkTimer.time = 0 ∧
    mkTimer.time ≠ timeMax ∧
    mkTimer.isSet = false ∧
    ((unset i (setAt i t s)).timers i).time = t := by
  refine ⟨rfl, by decide, by decide, ?_⟩
  rcases h : (s.timers i).state <;> simp [setAt, unset, h]

/-- C6: a timer rearmed (`setAt`) from within any handler during a dispatch pass,
even to a deadline ≤ the current event time, never has its handler invoked in
that pass: no operation available to a handler puts a timer into state Dispatch,
and `dispatch_timers` fires each timer at most once and only timers already in
state Dispatch when the pass began, so such a timer fires no earlier than the
following iteration. -/
theorem C6_rearm_not_fired_in_pass (th : Nat → List HandlerOp) (fuel : Nat)
    (s : LoopState) :
    (∀ op s2 j, ((applyOp op s2).timers j).state = .Dispatch →
      (s2.timers j).state = .Dispatch) ∧
    (∃ new, (dispatch_timers th fuel s).1.trace = s.trace ++ new ∧
      ∀ j, new.count (Ev.firedTimer j) ≤ 1 ∧
        (1 ≤ new.count (Ev.firedTimer j) → (s.timers j).state = .Dispatch)) :=
  ⟨fun op s2 j => applyOp_dispatch_mono op s2 j, dispatch_timers_fired th fuel s⟩

theorem C6_rearm_not_fired_in_pass_witness :
    ((applyOp HandlerOp.hStop { baseState with
        timers := fun _ => { state := TimerState.Dispatch, time := 0 } }).timers
        0).state = .Dispatch ∧
    (({ baseState with
        timers := fun _ => { state := TimerState.Dispatch, time := 0 } } :
        LoopState).timers 0).state = .Dispatch :=
  ⟨by decide,
    (C6_rearm_not_fired_in_pass (fun _ => []) 0 baseState).1 HandlerOp.hStop
      { baseState with
          timers := fun _ => { state := TimerState.Dispatch, time := 0 } }
      0 (by decide)⟩

/-- C7: for every async-signal object and every `N ≥ 1`, raising the signal `N`
times before the loop dispatches it makes its handler fire exactly once in that
dispatch; `signal()` on an already-queued node changes nothing (and invokes no
wakeup), and the provider wakeup is invoked exactly when the node is inserted
into a previously empty pending list. -/
theorem C7_signal_fires_exactly_once (s : LoopState) (i N : Nat)
    (sh : Nat → List HandlerOp)
    (hrem : isRemovedSig i s = true) (hN : 1 ≤ N) (hstop : s.stop = false)
    (hsh : ∀ j, HandlerOp.hStop ∉ sh j ∧ HandlerOp.hResetSig i ∉ sh j) :
    (∀ s2, isRemovedSig i s2 = false → signal i s2 = s2) ∧
    (∀ s2, (signal i s2).trace =
      (if isRemovedSig i s2 = true ∧ s2.pending = []
       then s2.trace ++ [Ev.wakeup] else s2.trace)) ∧
    ((signal i)^[N] s).pending.count i = 1 ∧
    (dispatch_async_signals sh ((signal i)^[N] s)).1.trace.count
        (Ev.firedSignal i) =
      s.trace.count (Ev.firedSignal i) + 1 := by
  obtain ⟨hcnt, heq⟩ := signal_iterate_count i s hrem N hN
  refine ⟨signal_queued_noop i, ?_, hcnt, ?_⟩
  · intro s2
    by_cases h2 : isRemovedSig i s2 = true
    · by_cases hp : s2.pending = []
      · rw [if_pos ⟨h2, hp⟩]
        simp [signal, h2, hp]
      · rw [if_neg (by tauto)]
        simp [signal, h2, List.isEmpty_iff, hp]
    · rw [if_neg (by tauto)]
      rw [signal_queued_noop i s2 (by simpa using h2)]
  · rw [heq] at hcnt ⊢
    have hstop1 : (signal i s).stop = false := by
      rw [signal_stop]
      exact hstop
    rw [dispatch_async_signals_count sh i hsh _ hstop1, signal_trace_count, hcnt]

theorem C7_signal_fires_exactly_once_witness :
    isRemovedSig 0 baseState = true ∧
    ((signal 0)^[1] baseState).pending.count 0 = 1 ∧
    (dispatch_async_signals (fun _ => []) ((signal 0)^[1] baseState)).1.trace.count
        (Ev.firedSignal 0) =
      baseState.trace.count (Ev.firedSignal 0) + 1 :=
  ⟨by decide,
    (C7_signal_fires_exactly_once baseState 0 1 (fun _ => []) (by decide)
      (by decide) rfl
      (fun j => ⟨List.not_mem_nil _, List.not_mem_nil _⟩)).2.2.1,
    (C7_signal_fires_exactly_once baseState 0 1 (fun _ => []) (by decide)
      (by decide) rfl
      (fun j => ⟨List.not_mem_nil _, List.not_mem_nil _⟩)).2.2.2⟩

/-- C8 counterexample: with two signals pending and the first handler stopping
the loop, `dispatch_async_signals` returns false with the second node still
linked on the dispatch list — the list is not lonely after the return. -/
theorem C8_counterexample :
    (dispatch_async_signals (fun n => if n = 1 then [HandlerOp.hStop] else [])
        { baseState with pending := [1, 2] }).2 = false ∧
    (dispatch_async_signals (fun n => if n = 1 then [HandlerOp.hStop] else [])
        { baseState with pending := [1, 2] }).1.dispatchL = [2] ∧
    ([2] : List Nat) ≠ [] :=
  ⟨rfl, rfl, by decide⟩

/-- C8 (amended): the dispatch list is lonely at all times except while
`dispatch_async_signals` is executing, provided each of its runs returns true:
handler operations, timer dispatch and finalize keep an empty dispatch list
empty, and every true-returning `dispatch_async_signals` leaves it empty again.
A false return (stop observed after a handler) may leave undispatched nodes on
the dispatch list. -/
theorem C8_dispatch_list_lonely (sh th : Nat → List HandlerOp) (s : LoopState)
    (hd : s.dispatchL = []) :
    (∀ op, (applyOp op s).dispatchL = []) ∧
    (∀ fuel, (dispatch_timers th fuel s).1.dispatchL = []) ∧
    (prepare_timers_for_wait s).2.dispatchL = [] ∧
    ((dispatch_async_signals sh s).2 = true →
      (dispatch_async_signals sh s).1.dispatchL = []) := by
  refine ⟨fun op => applyOp_dispatchL_nil op s hd,
    fun fuel => dispatch_timers_dispatchL_nil th fuel s hd,
    by rw [prepare_timers_for_wait_dispatchL]; exact hd, ?_⟩
  intro htrue
  simp only [dispatch_async_signals] at htrue ⊢
  split_ifs at htrue ⊢ with hp
  · exact hd
  · exact dispatchSigLoop_true_nil sh _ _ (by simp) htrue

theorem C8_dispatch_list_lonely_witness :
    (baseState.dispatchL = []) ∧
    ((dispatch_async_signals (fun _ => []) baseState).2 = true →
      (dispatch_async_signals (fun _ => []) baseState).1.dispatchL = []) :=
  ⟨rfl, (C8_dispatch_list_lonely (fun _ => []) (fun _ => []) baseState rfl).2.2.2⟩

end AIpStack
